import Mathlib

/-!
Shallow embedding of the glimo AutoLayout flex engine
(`instructions/auto_layout.go`, `auto_layout_compute.go`, `auto_layout_node.go`,
`auto_layout_place.go`).

Modelling conventions:
* Go `int` is `Int`; Go integer division (`/`, truncation toward zero) is `Int.tdiv`.
* Go `float64` flex factors (`FlexGrow`, `FlexShrink`) are modelled as exact
  rationals `ℚ`; `math.Floor` is `Int.floor`.
* A child's intrinsic size (`meas.Size()` rounded to `int` in `naturalSize`) is
  modelled as a pair of integers stored in the node; a shape without a
  measurable capability behaves exactly like one reporting size 0×0.
* The container gap (`int(cs.Gap.X)`, `int(cs.Gap.Y)`) is stored as integers.
* Go code that would panic (integer division by zero) is modelled with
  `Option`: `none` is the panic.  All guarded divisions go through `goDivQ`.
-/

/-- FlexDirection (`Row` / `Column`). -/
inductive GDir where
  | row
  | column
deriving DecidableEq

/-- JustifyContent (`JustifyStart` … `JustifySpaceEvenly`). -/
inductive GJustify where
  | jStart
  | jCenter
  | jEnd
  | spaceBetween
  | spaceAround
  | spaceEvenly
deriving DecidableEq

/-- AlignItems / AlignContent (`AlignItemsStart` … `AlignItemsStretch`). -/
inductive GAlign where
  | aStart
  | aCenter
  | aEnd
  | aStretch
deriving DecidableEq

/-- PositionType (`PosRelative` / `PosAbsolute`). -/
inductive GPosType where
  | relative
  | absolute
deriving DecidableEq

/-- ItemStyle: per-child layout style (margins in top,right,bottom,left order). -/
structure GItemStyle where
  marginTop : Int
  marginRight : Int
  marginBottom : Int
  marginLeft : Int
  width : Int
  height : Int
  flexGrow : ℚ
  flexShrink : ℚ
  flexBasis : Int
  alignSelf : Option GAlign
  pos : GPosType
  top : Option Int
  right : Option Int
  bottom : Option Int
  left : Option Int
  zIndex : Int
  ignoreGapBefore : Bool
deriving DecidableEq

/-- The zero value of `ItemStyle` (Go's zero struct). -/
def defaultItem : GItemStyle :=
  { marginTop := 0, marginRight := 0, marginBottom := 0, marginLeft := 0
    width := 0, height := 0, flexGrow := 0, flexShrink := 0, flexBasis := 0
    alignSelf := none, pos := GPosType.relative
    top := none, right := none, bottom := none, left := none
    zIndex := 0, ignoreGapBefore := false }

/-- ContainerStyle: container-level layout style. -/
structure GContainerStyle where
  direction : GDir
  wrap : Bool
  padTop : Int
  padRight : Int
  padBottom : Int
  padLeft : Int
  gapX : Int
  gapY : Int
  justify : GJustify
  alignItems : GAlign
  alignContent : GAlign
  width : Int
  height : Int
deriving DecidableEq

/-- The zero value of `ContainerStyle` (Go's zero struct, `Display` forced to flex). -/
def defaultStyle : GContainerStyle :=
  { direction := GDir.row, wrap := false
    padTop := 0, padRight := 0, padBottom := 0, padLeft := 0
    gapX := 0, gapY := 0
    justify := GJustify.jStart, alignItems := GAlign.aStart
    alignContent := GAlign.aStart, width := 0, height := 0 }

/-- A registered child: its intrinsic (measured) size and its item style. -/
structure GNode where
  intrinsicW : Int
  intrinsicH : Int
  st : GItemStyle
deriving DecidableEq

/-- In-flow test: absolute items are skipped by line building and estimates. -/
def isFlow (n : GNode) : Bool :=
  match n.st.pos with
  | GPosType.absolute => false
  | GPosType.relative => true

/-- naturalSize: intrinsic size with explicit `Width` / `Height` overrides. -/
def naturalSize (n : GNode) : Int × Int :=
  (if n.st.width > 0 then n.st.width else n.intrinsicW,
   if n.st.height > 0 then n.st.height else n.intrinsicH)

/-- baseMainCross: base contribution along main and cross axes, margins included. -/
def baseMainCross (n : GNode) (isRow : Bool) : Int × Int :=
  if isRow then
    ((if n.st.flexBasis > 0 then n.st.flexBasis
      else if n.st.width > 0 then n.st.width
      else (naturalSize n).1) + n.st.marginLeft + n.st.marginRight,
     (naturalSize n).2 + n.st.marginTop + n.st.marginBottom)
  else
    ((if n.st.flexBasis > 0 then n.st.flexBasis
      else if n.st.height > 0 then n.st.height
      else (naturalSize n).2) + n.st.marginTop + n.st.marginBottom,
     (naturalSize n).1 + n.st.marginLeft + n.st.marginRight)

/-- resolveCrossSize: cross-axis size before AlignItems stretching. -/
def resolveCrossSize (n : GNode) (isRow : Bool) (nw nh : Int) : Int :=
  if isRow then (if n.st.height > 0 then n.st.height else nh)
  else (if n.st.width > 0 then n.st.width else nw)

/-- line: a flex line (`items`, accumulated `base`, maximal `cross`,
`skippedGaps` count of ignored container gaps). -/
structure GLine where
  items : List GNode
  base : Int
  cross : Int
  skippedGaps : Int
deriving DecidableEq

/-- Result record of `computeInner`: content box, padding offsets and gaps. -/
structure InnerBox where
  innerW : Int
  innerH : Int
  pl : Int
  pt : Int
  gx : Int
  gy : Int
deriving DecidableEq

/-- computeInner (`auto_layout_compute.go`): content-box dimensions; auto axes
are estimated from in-flow children assuming a single line. -/
def computeInner (cs : GContainerStyle) (children : List GNode) (isRow : Bool) : InnerBox :=
  let flow := children.filter isFlow
  let natMain := (flow.map (fun n => (baseMainCross n isRow).1)).sum
  let natCross := (flow.map (fun n => (baseMainCross n isRow).2)).foldl max 0
  let count : Int := flow.length
  let innerW :=
    if cs.width > 0 then cs.width - cs.padLeft - cs.padRight
    else if cs.width = 0 then
      (if isRow then natMain + cs.gapX * max 0 (count - 1) else natCross)
    else 0
  let innerH :=
    if cs.height > 0 then cs.height - cs.padTop - cs.padBottom
    else if cs.height = 0 then
      (if isRow then natCross else natMain + cs.gapY * max 0 (count - 1))
    else 0
  ⟨innerW, innerH, cs.padLeft, cs.padTop, cs.gapX, cs.gapY⟩

/-- One step of the buildLines loop over a child (state: closed lines, current line). -/
def buildStep (isRow wrap autoHC : Bool) (mainLimit gapMain : Int)
    (acc : List GLine × GLine) (n : GNode) : List GLine × GLine :=
  if isFlow n = false then acc
  else
    let lines := acc.1
    let cur := acc.2
    let bm := (baseMainCross n isRow).1
    let bc := (baseMainCross n isRow).2
    let gapBefore : Int :=
      if cur.items ≠ [] ∧ n.st.ignoreGapBefore = false then gapMain else 0
    let effLimit : Int := if autoHC = true then 0 else mainLimit
    if wrap = true ∧ cur.items ≠ [] ∧ effLimit < cur.base + (bm + gapBefore) then
      (lines ++ [cur], ⟨[n], bm, max 0 bc, 0⟩)
    else
      (lines, ⟨cur.items ++ [n], cur.base + gapBefore + bm, max cur.cross bc, cur.skippedGaps⟩)

/-- buildLines (`auto_layout_compute.go`): partition children into flex lines.
For a Column with auto height the wrap limit is replaced by 0; the field
`skippedGaps` is initialised to 0 and — exactly as in the source — never
incremented anywhere. -/
def buildLines (cs : GContainerStyle) (children : List GNode) (isRow : Bool)
    (mainLimit gx gy : Int) : List GLine :=
  let gapMain := if isRow then gx else gy
  let autoHC := !isRow && (cs.height == 0)
  let res := children.foldl (buildStep isRow cs.wrap autoHC mainLimit gapMain)
    ([], ⟨[], 0, 0, 0⟩)
  if res.2.items.isEmpty then res.1 else res.1 ++ [res.2]

/-- Go integer division truncates toward zero. -/
def goDiv (a b : Int) : Int := Int.tdiv a b

/-- Checked Go integer division: `none` models the runtime panic on division by zero. -/
def goDivQ (a b : Int) : Option Int :=
  if b = 0 then none else some (Int.tdiv a b)

/-- Proportional shares of `total` by weights (`share := float64(flexFree) * (w / totalW)`). -/
def lrShares (total : Int) (ws : List ℚ) : List ℚ :=
  ws.map (fun w => (total : ℚ) * (w / ws.sum))

/-- Floor of every share (`int(math.Floor(share))`). -/
def lrFloorList (shares : List ℚ) : List Int :=
  shares.map (fun s => ⌊s⌋)

/-- Fractional part of every share (`share - float64(f)`). -/
def lrFracs (shares : List ℚ) : List ℚ :=
  shares.map (fun s => s - (⌊s⌋ : ℚ))

/-- Insert index `i` into an index list ordered by strictly descending key. -/
def insDesc (keys : List ℚ) (i : Nat) : List Nat → List Nat
  | [] => [i]
  | j :: js =>
    if keys.getD j 0 < keys.getD i 0 then i :: j :: js else j :: insDesc keys i js

/-- Index permutation sorting `0 … n-1` by descending key
(models the `sort.Slice(idx, fracs[idx[i]] > fracs[idx[j]])` call). -/
def idxSortDesc (keys : List ℚ) : List Nat :=
  (List.range keys.length).foldl (fun acc i => insDesc keys i acc) []

/-- Increment the entry at position `i` (no effect out of range). -/
def bump : List Int → Nat → List Int
  | [], _ => []
  | x :: xs, 0 => (x + 1) :: xs
  | x :: xs, Nat.succ i => x :: bump xs i

/-- Apply one increment per listed position (`floors[idx[k]]++`). -/
def bumps (l : List Int) (ks : List Nat) : List Int :=
  ks.foldl bump l

/-- Largest-remainder distribution of `total` over weights: floors of the
proportional shares, then one leftover pixel to each of the `rem` largest
fractional remainders (`auto_layout_place.go`, grow and shrink branches). -/
def lrFloors (total : Int) (ws : List ℚ) : List Int :=
  let shares := lrShares total ws
  let floors := lrFloorList shares
  let rem := total - floors.sum
  bumps floors ((idxSortDesc (lrFracs shares)).take rem.toNat)

/-- Shrink factor defaulting: a declared shrink of 0 counts as 1. -/
def defShrink (s : ℚ) : ℚ := if s = 0 then 1 else s

theorem listSumMulLeft (c : ℚ) (l : List ℚ) :
    (l.map (fun x => c * x)).sum = c * l.sum := by
  induction l with
  | nil => simp
  | cons a t ih => simp [ih, mul_add]

theorem lrShares_sum (total : Int) (ws : List ℚ) (h : ws.sum ≠ 0) :
    (lrShares total ws).sum = total := by
  have hf : (fun w => (total : ℚ) * (w / ws.sum)) = (fun w => ((total : ℚ) / ws.sum) * w) := by
    funext w
    ring
  rw [lrShares, hf, listSumMulLeft, div_mul_cancel₀ _ h]

theorem lrFloorList_sum_le (sh : List ℚ) : ((lrFloorList sh).sum : ℚ) ≤ sh.sum := by
  induction sh with
  | nil => simp [lrFloorList]
  | cons a t ih =>
    simp only [lrFloorList, List.map_cons, List.sum_cons] at *
    rw [Int.cast_add]
    exact add_le_add (Int.floor_le a) ih

theorem lrFloorList_sum_ge (sh : List ℚ) :
    sh.sum ≤ ((lrFloorList sh).sum : ℚ) + sh.length := by
  induction sh with
  | nil => simp [lrFloorList]
  | cons a t ih =>
    simp only [lrFloorList, List.map_cons, List.sum_cons, List.length_cons] at *
    rw [Int.cast_add]
    have ha : a ≤ (⌊a⌋ : ℚ) + 1 := le_of_lt (Int.lt_floor_add_one a)
    push_cast
    push_cast at ih
    linarith

theorem bump_length (l : List Int) (i : Nat) : (bump l i).length = l.length := by
  induction l generalizing i with
  | nil => rfl
  | cons x xs ih =>
    cases i with
    | zero => rfl
    | succ j => simp [bump, ih]

theorem bump_sum (l : List Int) (i : Nat) :
    (bump l i).sum = l.sum + (if i < l.length then 1 else 0) := by
  induction l generalizing i with
  | nil => simp [bump]
  | cons x xs ih =>
    cases i with
    | zero => simp [bump]; ring
    | succ j =>
      simp only [bump, List.sum_cons, ih, List.length_cons]
      by_cases hj : j < xs.length
      · rw [if_pos hj, if_pos (by omega)]
        ring
      · rw [if_neg hj, if_neg (by omega)]
        ring

theorem bumps_sum (ks : List Nat) (l : List Int) (h : ∀ k ∈ ks, k < l.length) :
    (bumps l ks).sum = l.sum + ks.length := by
  induction ks generalizing l with
  | nil => simp [bumps]
  | cons k ks ih =>
    have hk : k < l.length := h k (List.mem_cons_self k ks)
    have hrest : ∀ k' ∈ ks, k' < (bump l k).length := by
      intro k' hk'
      rw [bump_length]
      exact h k' (List.mem_cons_of_mem _ hk')
    simp only [bumps, List.foldl_cons] at *
    rw [ih (bump l k) hrest, bump_sum, if_pos hk, List.length_cons]
    push_cast
    ring

theorem insDesc_length (keys : List ℚ) (i : Nat) (l : List Nat) :
    (insDesc keys i l).length = l.length + 1 := by
  induction l with
  | nil => rfl
  | cons j js ih =>
    simp only [insDesc]
    split
    · simp
    · simp [ih]

theorem insDesc_mem (keys : List ℚ) (i : Nat) (l : List Nat) (x : Nat)
    (hx : x ∈ insDesc keys i l) : x = i ∨ x ∈ l := by
  induction l with
  | nil => simpa [insDesc] using hx
  | cons j js ih =>
    simp only [insDesc] at hx
    split at hx
    · rcases List.mem_cons.mp hx with h | h
      · exact Or.inl h
      · exact Or.inr h
    · rcases List.mem_cons.mp hx with h | h
      · exact Or.inr (by simp [h])
      · rcases ih h with h' | h'
        · exact Or.inl h'
        · exact Or.inr (List.mem_cons_of_mem _ h')

theorem foldlIns_length (keys : List ℚ) (L : List Nat) (acc : List Nat) :
    ((L.foldl (fun a i => insDesc keys i a) acc).length) = acc.length + L.length := by
  induction L generalizing acc with
  | nil => simp
  | cons i L ih =>
    simp only [List.foldl_cons, List.length_cons, ih, insDesc_length]
    ring

theorem foldlIns_mem (keys : List ℚ) (L : List Nat) (acc : List Nat) (x : Nat)
    (hx : x ∈ L.foldl (fun a i => insDesc keys i a) acc) : x ∈ acc ∨ x ∈ L := by
  induction L generalizing acc with
  | nil => exact Or.inl hx
  | cons i L ih =>
    simp only [List.foldl_cons] at hx
    rcases ih (insDesc keys i acc) hx with h | h
    · rcases insDesc_mem keys i acc x h with h' | h'
      · exact Or.inr (by simp [h'])
      · exact Or.inl h'
    · exact Or.inr (List.mem_cons_of_mem _ h)

theorem idxSortDesc_length (keys : List ℚ) : (idxSortDesc keys).length = keys.length := by
  simpa using foldlIns_length keys (List.range keys.length) []

theorem idxSortDesc_mem_lt (keys : List ℚ) (x : Nat) (hx : x ∈ idxSortDesc keys) :
    x < keys.length := by
  rcases foldlIns_mem keys (List.range keys.length) [] x hx with h | h
  · simp at h
  · exact List.mem_range.mp h

theorem lrFloors_sum (total : Int) (ws : List ℚ) (h : ws.sum ≠ 0) :
    (lrFloors total ws).sum = total := by
  have hsum : (lrShares total ws).sum = total := lrShares_sum total ws h
  have hle : ((lrFloorList (lrShares total ws)).sum : ℚ) ≤ total := by
    rw [← hsum]
    exact lrFloorList_sum_le _
  have hge : (total : ℚ) ≤ ((lrFloorList (lrShares total ws)).sum : ℚ)
      + (lrShares total ws).length := by
    rw [← hsum]
    exact lrFloorList_sum_ge _
  have hle' : (lrFloorList (lrShares total ws)).sum ≤ total := by exact_mod_cast hle
  have hge' : total ≤ (lrFloorList (lrShares total ws)).sum + ((lrShares total ws).length : Int) := by
    exact_mod_cast hge
  have hidxlen : (idxSortDesc (lrFracs (lrShares total ws))).length
      = (lrShares total ws).length := by
    rw [idxSortDesc_length, lrFracs, List.length_map]
  have hfllen : (lrFloorList (lrShares total ws)).length = (lrShares total ws).length := by
    rw [lrFloorList, List.length_map]
  have hmem : ∀ k ∈ (idxSortDesc (lrFracs (lrShares total ws))).take
      (total - (lrFloorList (lrShares total ws)).sum).toNat,
      k < (lrFloorList (lrShares total ws)).length := by
    intro k hk
    have := idxSortDesc_mem_lt _ k (List.mem_of_mem_take hk)
    rw [lrFracs, List.length_map] at this
    omega
  have hbs := bumps_sum _ _ hmem
  have htl : ((idxSortDesc (lrFracs (lrShares total ws))).take
      (total - (lrFloorList (lrShares total ws)).sum).toNat).length
      = (total - (lrFloorList (lrShares total ws)).sum).toNat := by
    rw [List.length_take, hidxlen]
    omega
  simp only [lrFloors]
  rw [hbs, htl]
  omega

/-- Per-item record precomputed at the top of each placeLines line loop. -/
structure IRec where
  n : GNode
  baseMainContent : Int
  baseWithMargins : Int
  mt : Int
  mr : Int
  mb : Int
  ml : Int
  nw : Int
  nh : Int
  align : GAlign
deriving DecidableEq

/-- Build one `itemRec` (`auto_layout_place.go`, per-item precomputation). -/
def mkRec (cs : GContainerStyle) (isRow : Bool) (n : GNode) : IRec :=
  let nw := (naturalSize n).1
  let nh := (naturalSize n).2
  let bmc :=
    if isRow then
      (if n.st.flexBasis > 0 then n.st.flexBasis
       else if n.st.width > 0 then n.st.width else nw)
    else
      (if n.st.flexBasis > 0 then n.st.flexBasis
       else if n.st.height > 0 then n.st.height else nh)
  { n := n
    baseMainContent := bmc
    baseWithMargins := bmc + (if isRow then n.st.marginLeft + n.st.marginRight
      else n.st.marginTop + n.st.marginBottom)
    mt := n.st.marginTop, mr := n.st.marginRight
    mb := n.st.marginBottom, ml := n.st.marginLeft
    nw := nw, nh := nh
    align := match n.st.alignSelf with
      | some a => a
      | none => cs.alignItems }

/-- Fixed gaps actually used between adjacent items of a line, honouring
`IgnoreGapBefore` of the following item. -/
def totalGapsOf (gapMain : Int) (recs : List IRec) : Int :=
  ((recs.drop 1).map (fun r => if r.n.st.ignoreGapBefore = false then gapMain else 0)).sum

/-- Line-specific effective main-axis limit after subtracting skipped gaps,
clamped at zero. -/
def effectiveMainLimit (mainLimit skipped gapMain : Int) : Int :=
  if mainLimit - skipped * gapMain < 0 then 0 else mainLimit - skipped * gapMain

/-- Resolved main sizes of a line's items: grow / shrink largest-remainder
distribution, result clamped at zero; otherwise base sizes. -/
def mainSizes (flexFree : Int) (recs : List IRec) : List Int :=
  let totalGrow := (recs.map (fun r => r.n.st.flexGrow)).sum
  let totalShrink := (recs.map (fun r => defShrink r.n.st.flexShrink)).sum
  if 0 < flexFree ∧ 0 < totalGrow then
    (recs.zip (lrFloors flexFree (recs.map (fun r => r.n.st.flexGrow)))).map
      (fun p => if p.1.baseMainContent + p.2 < 0 then 0 else p.1.baseMainContent + p.2)
  else if flexFree < 0 ∧ 0 < totalShrink then
    (recs.zip (lrFloors (-flexFree) (recs.map (fun r => defShrink r.n.st.flexShrink)))).map
      (fun p => if p.1.baseMainContent - p.2 < 0 then 0 else p.1.baseMainContent - p.2)
  else
    recs.map (fun r => r.baseMainContent)

/-- JustifyContent leading offset and per-pair extra spacing; every integer
division is guarded exactly as in the source. -/
def justifyParams (j : GJustify) (remaining : Int) (nrecs : Nat) : Option (Int × Int) :=
  match j with
  | GJustify.jStart => some (0, 0)
  | GJustify.jCenter => (goDivQ remaining 2).map (fun o => (o, 0))
  | GJustify.jEnd => some (remaining, 0)
  | GJustify.spaceBetween =>
    if 1 < nrecs then (goDivQ remaining ((nrecs : Int) - 1)).map (fun e => (0, e))
    else some (0, 0)
  | GJustify.spaceAround =>
    if 0 < nrecs then
      (goDivQ remaining (nrecs : Int)).bind (fun e => (goDivQ e 2).map (fun o => (o, e)))
    else some (0, 0)
  | GJustify.spaceEvenly =>
    if 0 < nrecs then (goDivQ remaining ((nrecs : Int) + 1)).map (fun e => (e, e))
    else some (0, 0)

/-- AlignContent cross start offset and per-line stretch extra. -/
def alignContentParams (ac : GAlign) (leftoverCross : Int) (nlines : Nat) : Option (Int × Int) :=
  match ac with
  | GAlign.aCenter => (goDivQ leftoverCross 2).map (fun o => (o, 0))
  | GAlign.aEnd => some (leftoverCross, 0)
  | GAlign.aStretch =>
    if 0 < nlines ∧ 0 < leftoverCross then
      (goDivQ leftoverCross (nlines : Int)).map (fun e => (0, e))
    else some (0, 0)
  | GAlign.aStart => some (0, 0)

/-- Cross-axis size of an item inside its line (stretch fills the line's cross
extent minus margins, floored at 1). -/
def crossSizeOf (lineCross : Int) (r : IRec) (isRow : Bool) : Int :=
  if r.align = GAlign.aStretch then
    (if isRow then max 1 (lineCross - (r.mt + r.mb)) else max 1 (lineCross - (r.ml + r.mr)))
  else resolveCrossSize r.n isRow r.nw r.nh

/-- Cross-axis position of an item inside its line. -/
def crossPosOf (lineCross sizeCross : Int) (r : IRec) (isRow : Bool) : Option Int :=
  match r.align with
  | GAlign.aStart => some (if isRow then r.mt else r.ml)
  | GAlign.aCenter =>
    (goDivQ (lineCross - sizeCross - (if isRow then r.mt + r.mb else r.ml + r.mr)) 2).map
      (fun d => d + (if isRow then r.mt else r.ml))
  | GAlign.aEnd =>
    some (if isRow then lineCross - sizeCross - r.mb else lineCross - sizeCross - r.mr)
  | GAlign.aStretch => some (if isRow then r.mt else r.ml)

/-- Final geometry of one placed item. -/
structure GRect where
  x : Int
  y : Int
  w : Int
  h : Int
deriving DecidableEq

/-- The fixed gap (unless the next item suppresses it) plus the justify extra
added to the main cursor between two adjacent items; zero after the last item. -/
def nextGap (gapMain extra : Int) (rest : List (IRec × Int)) : Int :=
  match rest with
  | [] => 0
  | (r2, _) :: _ => (if r2.n.st.ignoreGapBefore = false then gapMain else 0) + extra

/-- Place the items of one line, advancing the main cursor by resolved size,
margins, the next fixed gap (unless suppressed) and the justify extra. -/
def placeItems (isRow : Bool) (alx aly pl pt crossOffset gapMain extra lineCross : Int) :
    List (IRec × Int) → Int → Option (List GRect)
  | [], _ => some []
  | (r, sz) :: rest, cursor =>
    let sc := crossSizeOf lineCross r isRow
    (crossPosOf lineCross sc r isRow).bind (fun cp =>
      let g : GRect :=
        if isRow then ⟨alx + pl + cursor + r.ml, aly + pt + crossOffset + cp, sz, sc⟩
        else ⟨alx + pl + crossOffset + cp, aly + pt + cursor + r.mt, sc, sz⟩
      let adv := if isRow then sz + r.ml + r.mr else sz + r.mt + r.mb
      (placeItems isRow alx aly pl pt crossOffset gapMain extra lineCross rest
        (cursor + adv + nextGap gapMain extra rest)).map (fun out => g :: out))

/-- Place one line: flex resolution, justify-content, per-item cross logic.
Returns the placed rectangles and the advanced cross offset. -/
def placeLine (cs : GContainerStyle) (isRow : Bool) (alx aly pl pt gapMain gapCross mainLimit : Int)
    (extraPerLine : Int) (ln : GLine) (crossOffset : Int) : Option (List GRect × Int) :=
  let recs := ln.items.map (mkRec cs isRow)
  let effLimit := effectiveMainLimit mainLimit ln.skippedGaps gapMain
  let sumBWM := (recs.map (fun r => r.baseWithMargins)).sum
  let totalGaps := totalGapsOf gapMain recs
  let flexFree := effLimit - sumBWM - totalGaps
  let sizes := mainSizes flexFree recs
  let used := ((recs.zip sizes).map
    (fun p => p.2 + (if isRow then p.1.ml + p.1.mr else p.1.mt + p.1.mb))).sum + totalGaps
  let remaining := if effLimit - used < 0 then 0 else effLimit - used
  (justifyParams cs.justify remaining recs.length).bind (fun oe =>
    let lineCross := ln.cross + extraPerLine
    (placeItems isRow alx aly pl pt crossOffset gapMain oe.2 lineCross
      (recs.zip sizes) oe.1).map (fun out => (out, crossOffset + lineCross + gapCross)))

/-- Loop of placeLines over all lines, threading the cross offset. -/
def linesLoop (cs : GContainerStyle) (isRow : Bool)
    (alx aly pl pt gapMain gapCross mainLimit extraPerLine : Int) :
    List GLine → Int → Option (List GRect)
  | [], _ => some []
  | ln :: rest, co =>
    (placeLine cs isRow alx aly pl pt gapMain gapCross mainLimit extraPerLine ln co).bind
      (fun pr =>
        (linesLoop cs isRow alx aly pl pt gapMain gapCross mainLimit extraPerLine rest
          pr.2).map (fun out => pr.1 ++ out))

/-- placeLines (`auto_layout_place.go`): place every line, with AlignContent
distribution of leftover cross space across lines. -/
def placeLines (cs : GContainerStyle) (lines : List GLine) (isRow : Bool)
    (innerW innerH pl pt gx gy alx aly : Int) : Option (List GRect) :=
  let mainLimit := if isRow then innerW else innerH
  let crossLimit := if isRow then innerH else innerW
  let gapMain := if isRow then gx else gy
  let gapCross := if isRow then gy else gx
  let totalCross :=
    if lines.length = 0 then 0
    else (lines.map (fun ln => ln.cross)).sum + gapCross * ((lines.length : Int) - 1)
  let leftoverCross := if crossLimit - totalCross < 0 then 0 else crossLimit - totalCross
  (alignContentParams cs.alignContent leftoverCross lines.length).bind (fun se =>
    linesLoop cs isRow alx aly pl pt gapMain gapCross mainLimit se.2 lines se.1)

/-- positionAbsolute for one node (`auto_layout_place.go`): `none` models the
`continue` on in-flow items; left beats right, top beats bottom. -/
def absolutePos (alx aly pl pt innerW innerH : Int) (n : GNode) : Option GRect :=
  match n.st.pos with
  | GPosType.relative => none
  | GPosType.absolute =>
    let w := (naturalSize n).1
    let h := (naturalSize n).2
    let cx0 := alx + pl
    let cy0 := aly + pt
    let x :=
      match n.st.left with
      | some l => cx0 + l + n.st.marginLeft
      | none =>
        match n.st.right with
        | some r => (cx0 + innerW) - r - w - n.st.marginRight
        | none => cx0
    let y :=
      match n.st.top with
      | some t => cy0 + t + n.st.marginTop
      | none =>
        match n.st.bottom with
        | some b => (cy0 + innerH) - b - h - n.st.marginBottom
        | none => cy0
    some ⟨x, y, w, h⟩

/-- Geometry of all absolutely positioned children. -/
def absoluteRects (alx aly pl pt innerW innerH : Int) (children : List GNode) : List GRect :=
  children.filterMap (absolutePos alx aly pl pt innerW innerH)

/-- Row with auto height: sum of line cross sizes plus inter-line gaps. -/
def rowAutoCross (gap : Int) (lines : List GLine) : Int :=
  (lines.map (fun ln => ln.cross)).sum + gap * max 0 ((lines.length : Int) - 1)

/-- Accumulated main length of one line's items counting only non-suppressed gaps
(`layoutFlex`, Column + auto Height recomputation). -/
def lineMainLen (gapMain : Int) (items : List GNode) : Int :=
  match items with
  | [] => 0
  | n0 :: rest =>
    (baseMainCross n0 false).1 +
      (rest.map (fun n => (baseMainCross n false).1 +
        (if n.st.ignoreGapBefore = false then gapMain else 0))).sum

/-- Column with auto height: maximum accumulated main length across lines. -/
def colAutoMain (gapMain : Int) (lines : List GLine) : Int :=
  lines.foldl (fun total ln => max total (lineMainLen gapMain ln.items)) 0

/-- Direction test (`al.style.Direction == Row`). -/
def dirIsRow (cs : GContainerStyle) : Bool :=
  match cs.direction with
  | GDir.row => true
  | GDir.column => false

/-- Intermediate state of layoutFlex after line building and auto-size feedback. -/
structure FlexFrame where
  isRow : Bool
  ib : InnerBox
  lines : List GLine
  innerW : Int
  innerH : Int
deriving DecidableEq

/-- The pure prefix of layoutFlex (`auto_layout.go`): computeInner, buildLines,
then auto cross-size / auto main-size resolution. -/
def flexFrame (cs : GContainerStyle) (children : List GNode) : FlexFrame :=
  let isRow := dirIsRow cs
  let ib := computeInner cs children isRow
  let mainLimit := if isRow then ib.innerW else ib.innerH
  let lines := buildLines cs children isRow mainLimit ib.gx ib.gy
  let innerH1 := if cs.height = 0 ∧ isRow = true then rowAutoCross ib.gy lines else ib.innerH
  let innerH2 := if cs.height = 0 ∧ isRow = false then colAutoMain ib.gy lines else innerH1
  let innerW2 := if cs.width = 0 ∧ isRow = false then rowAutoCross ib.gx lines else ib.innerW
  ⟨isRow, ib, lines, innerW2, innerH2⟩

/-- Outer size produced by layoutFlex: final content box plus padding
(`al.w = innerW + pleft + pright`, `al.h = innerH + ptop + pbottom`). -/
def layoutFlexSize (cs : GContainerStyle) (children : List GNode) : Int × Int :=
  let f := flexFrame cs children
  (f.innerW + cs.padLeft + cs.padRight, f.innerH + cs.padTop + cs.padBottom)

/-- The complete checked layout pass: sizes, in-flow geometry, absolute geometry.
`none` would mean a runtime panic in the source. -/
def layoutFlexChecked (alx aly : Int) (cs : GContainerStyle) (children : List GNode) :
    Option ((Int × Int) × List GRect × List GRect) :=
  let f := flexFrame cs children
  (placeLines cs f.lines f.isRow f.innerW f.innerH f.ib.pl f.ib.pt f.ib.gx f.ib.gy alx aly).map
    (fun rects =>
      ((f.innerW + cs.padLeft + cs.padRight, f.innerH + cs.padTop + cs.padBottom),
        rects, absoluteRects alx aly f.ib.pl f.ib.pt f.innerW f.innerH children))

/-- Container state: origin, style, registered children, cached outer size,
dirty flag (`AutoLayout` struct). -/
structure ALState where
  alx : Int
  aly : Int
  style : GContainerStyle
  children : List GNode
  w : Int
  h : Int
  dirty : Bool
deriving DecidableEq

/-- NewAutoLayout: fresh container, dirty, no children. -/
def newAutoLayout (x y : Int) (cs : GContainerStyle) : ALState :=
  ⟨x, y, cs, [], 0, 0, true⟩

/-- Add: register a child, reset the cached size, mark dirty. -/
def addChild (s : ALState) (n : GNode) : ALState :=
  { s with children := s.children ++ [n], w := 0, h := 0, dirty := true }

/-- SetStyle: replace the container style, reset the cached size, mark dirty. -/
def setStyle (s : ALState) (cs : GContainerStyle) : ALState :=
  { s with style := cs, w := 0, h := 0, dirty := true }

/-- ensureLayout: recompute the layout if dirty or the cached size is 0×0;
the boolean reports whether a recomputation ran. -/
def ensureLayout (s : ALState) : ALState × Bool :=
  if s.dirty = true ∨ (s.w = 0 ∧ s.h = 0) then
    ({ s with
        w := (layoutFlexSize s.style s.children).1
        h := (layoutFlexSize s.style s.children).2
        dirty := false }, true)
  else (s, false)

/-- Size: ensureLayout then report the cached outer size
(result, updated state, recomputation flag). -/
def sizeQuery (s : ALState) : (Int × Int) × ALState × Bool :=
  (((ensureLayout s).1.w, (ensureLayout s).1.h), (ensureLayout s).1, (ensureLayout s).2)

/-- Stable insertion of a node into a z-ascending list: the new node goes after
every node whose ZIndex is less than or equal to its own. -/
def insertByZ (n : GNode) : List GNode → List GNode
  | [] => [n]
  | m :: ms => if m.st.zIndex ≤ n.st.zIndex then m :: insertByZ n ms else n :: m :: ms

/-- Behaviour of `sort.SliceStable(children, zIndex ascending)` in Draw:
a stable ascending sort of the stored child list. -/
def sortChildrenByZ (cs : List GNode) : List GNode :=
  cs.foldl (fun acc n => insertByZ n acc) []

/-- Draw's effect on the container state: ensureLayout, then the stored child
list is re-sorted in place by ascending ZIndex (painting itself is external). -/
def drawStep (s : ALState) : ALState :=
  { (ensureLayout s).1 with children := sortChildrenByZ (ensureLayout s).1.children }

/-- Container used for the C1 gap-suppression check: row, width 200,
padding 5 each side (content 190), horizontal gap 10. -/
def c1Style : GContainerStyle :=
  { defaultStyle with
      width := 200
      height := 60
      gapX := 10
      padTop := 5
      padRight := 5
      padBottom := 5
      padLeft := 5 }

/-- A 40×20 in-flow item. -/
def c1ItemA : GNode := ⟨40, 20, defaultItem⟩

/-- A 40×20 in-flow item with the gap-suppression flag set. -/
def c1ItemB : GNode := ⟨40, 20, { defaultItem with ignoreGapBefore := true }⟩

/-- C1: the claim says that setting IgnoreGapBefore increments the line's
suppressed-gap counter so that the placement engine's effective budget shrinks
by one main gap.  Evaluating the code at a row line (content 190, gap 10) whose
second item sets the flag shows: the flag does remove the gap from the consumed
main length (base 80, not 90), but `buildLines` never increments `skippedGaps`
(it stays 0), so the effective main-axis budget stays the full 190 instead of
180.  This contradicts the source's own comments on `line.skippedGaps`
("count of ignored container gaps in this line") and on `placeLines`
("the effective main-axis limit is reduced by the number of skipped gaps"). -/
theorem c1_skipped_gap_counter_never_incremented :
    (buildLines c1Style [c1ItemA, c1ItemB] true 190 10 0).map (fun ln => ln.skippedGaps) = [0]
    ∧ (buildLines c1Style [c1ItemA, c1ItemB] true 190 10 0).map (fun ln => ln.base) = [80]
    ∧ effectiveMainLimit 190 0 10 = 190
    ∧ effectiveMainLimit 190 0 10 ≠ 190 - 10 := by
  decide

/-- C4 counterexample: for the degenerate container whose computed outer size
is 0×0 (here: a fresh empty container with a fully zero style), the second
outer-size query is NOT a cache hit — `ensureLayout` recomputes on both calls
because it re-runs whenever the cached size is 0×0 — refuting "at most one
internal recomputation for every container state, including degenerate ones"
(the returned sizes are nevertheless identical). -/
theorem c4_second_query_recomputes_on_zero_size :
    (sizeQuery (newAutoLayout 0 0 defaultStyle)).2.2 = true
    ∧ (sizeQuery (sizeQuery (newAutoLayout 0 0 defaultStyle)).2.1).2.2 = true
    ∧ (sizeQuery (newAutoLayout 0 0 defaultStyle)).1
      = (sizeQuery (sizeQuery (newAutoLayout 0 0 defaultStyle)).2.1).1 := by
  decide

/-- Column container with auto height, wrapping enabled, vertical gap 10. -/
def c8WrapStyle : GContainerStyle :=
  { defaultStyle with direction := GDir.column, wrap := true, gapY := 10, width := 100 }

/-- A 30×20 in-flow item. -/
def c8A : GNode := ⟨30, 20, defaultItem⟩

/-- A 30×20 in-flow item with the gap-suppression flag set. -/
def c8B : GNode := ⟨30, 20, { defaultItem with ignoreGapBefore := true }⟩

/-- C8 counterexample: with wrapping enabled, an auto-height column puts every
item on its own line (buildLines replaces the wrap limit by 0 for auto-height
columns), so the two children never share a line and the reported outer height
is 20 whether or not the second child suppresses its gap — not `gap` (=10)
pixels smaller as the claim states for every such container. -/
theorem c8_wrap_breaks_gap_round_trip :
    (layoutFlexSize c8WrapStyle [c8A, c8B]).2 = 20
    ∧ (layoutFlexSize c8WrapStyle [c8A, c8A]).2 = 20
    ∧ ¬ ((layoutFlexSize c8WrapStyle [c8A, c8B]).2
        = (layoutFlexSize c8WrapStyle [c8A, c8A]).2 - 10) := by
  decide

/-- An absolutely positioned node with right/bottom offsets and no left/top. -/
def mkAbsRB (iw ih R B : Int) (st : GItemStyle) : GNode :=
  ⟨iw, ih, { st with
      pos := GPosType.absolute
      left := none
      top := none
      right := some R
      bottom := some B }⟩

/-- C6: an absolutely positioned item with right offset R, bottom offset B and
margins (mt,mr,mb,ml) inside a content box (W,H) with padding offsets (pl,pt)
resolves to x = pl + (W − R − width − mr), y = pt + (H − B − height − mb)
relative to the container origin (alx,aly), where width/height are the explicit
sizes if given, else the intrinsic sizes (this is `naturalSize`). -/
theorem c6_absolute_right_bottom (alx aly pl pt innerW innerH iw ih R B : Int)
    (st : GItemStyle) :
    absolutePos alx aly pl pt innerW innerH (mkAbsRB iw ih R B st)
    = some ⟨alx + (pl + (innerW - R - (naturalSize (mkAbsRB iw ih R B st)).1 - st.marginRight)),
        aly + (pt + (innerH - B - (naturalSize (mkAbsRB iw ih R B st)).2 - st.marginBottom)),
        (naturalSize (mkAbsRB iw ih R B st)).1,
        (naturalSize (mkAbsRB iw ih R B st)).2⟩ := by
  simp only [absolutePos, mkAbsRB, naturalSize, Option.some.injEq, GRect.mk.injEq]
  refine ⟨by ring, by ring, trivial, trivial⟩

/-- An absolutely positioned node with left/top offsets; right and bottom are
arbitrary (possibly also set). -/
def mkAbsLT (iw ih L T : Int) (r b : Option Int) (st : GItemStyle) : GNode :=
  ⟨iw, ih, { st with
      pos := GPosType.absolute
      left := some L
      top := some T
      right := r
      bottom := b }⟩

/-- C7: when an absolutely positioned item supplies both a left and a right
offset, the horizontal position is computed from the left offset
(x = origin + pl + left + ml) and the right offset is ignored — the result is
the same as with no right offset at all; symmetrically top wins over bottom. -/
theorem c7_left_top_win_over_right_bottom (alx aly pl pt innerW innerH iw ih L T : Int)
    (r b : Option Int) (st : GItemStyle) :
    absolutePos alx aly pl pt innerW innerH (mkAbsLT iw ih L T r b st)
    = some ⟨alx + pl + L + st.marginLeft, aly + pt + T + st.marginTop,
        (naturalSize (mkAbsLT iw ih L T r b st)).1,
        (naturalSize (mkAbsLT iw ih L T r b st)).2⟩
    ∧ absolutePos alx aly pl pt innerW innerH (mkAbsLT iw ih L T r b st)
      = absolutePos alx aly pl pt innerW innerH (mkAbsLT iw ih L T none none st) := by
  constructor
  · simp only [absolutePos, mkAbsLT, naturalSize]
  · simp only [absolutePos, mkAbsLT, naturalSize]

theorem listSumMapNeg (l : List Int) : (l.map (fun d => -d)).sum = -l.sum := by
  induction l with
  | nil => simp
  | cons a t ih => simp [ih]; ring

/-- C2: in the flex resolution of a line, the largest-remainder distribution
conserves the total: in the grow branch (flexFree > 0, total grow factor > 0)
the per-item adjustments `lrFloors flexFree grows` sum exactly to `flexFree`;
in the shrink branch (flexFree < 0, total defaulted shrink factor > 0, where a
declared shrink of 0 counts as 1) the per-item adjustments
`-(lrFloors (-flexFree) shrinkWeights)` also sum exactly to `flexFree` — no
pixel lost or gained, for every combination of factors the branches accept
(including a single nonzero factor, and all-zero declared shrink factors,
which default to 1). -/
theorem c2_flex_distribution_conserves_total (flexFree : Int) (grows shrinks : List ℚ) :
    (0 < flexFree → 0 < grows.sum → (lrFloors flexFree grows).sum = flexFree)
    ∧ (flexFree < 0 → 0 < (shrinks.map defShrink).sum →
        ((lrFloors (-flexFree) (shrinks.map defShrink)).map (fun d => -d)).sum = flexFree) := by
  constructor
  · intro _ hg
    exact lrFloors_sum flexFree grows (ne_of_gt hg)
  · intro _ hs
    rw [listSumMapNeg, lrFloors_sum (-flexFree) (shrinks.map defShrink) (ne_of_gt hs)]
    ring

/-- C2 witness: the grow branch at flexFree = 40 with factors [2, 0] and the
shrink branch at flexFree = −5 with declared factors [0, 2] (defaulted to
[1, 2]); the hypotheses hold and the distributions conserve the totals. -/
theorem c2_flex_distribution_conserves_total_witness :
    ((0 : Int) < 40 ∧ (0 : ℚ) < ([2, 0] : List ℚ).sum
      ∧ (lrFloors 40 ([2, 0] : List ℚ)).sum = 40)
    ∧ ((-5 : Int) < 0 ∧ (0 : ℚ) < (([0, 2] : List ℚ).map defShrink).sum
      ∧ ((lrFloors (-(-5)) (([0, 2] : List ℚ).map defShrink)).map (fun d => -d)).sum = -5) := by
  have hg : (0 : ℚ) < ([2, 0] : List ℚ).sum := by norm_num
  have hs : (0 : ℚ) < (([0, 2] : List ℚ).map defShrink).sum := by norm_num [defShrink]
  exact ⟨⟨by norm_num, hg,
      (c2_flex_distribution_conserves_total 40 [2, 0] [0, 2]).1 (by norm_num) hg⟩,
    ⟨by norm_num, hs,
      (c2_flex_distribution_conserves_total (-5) [2, 0] [0, 2]).2 (by norm_num) hs⟩⟩

/-- C5: wrapping enabled, two in-flow items whose combined base main length
plus the gap that would precede the second (zero if that item suppresses it)
exceeds the (non-negative) main-axis limit: the line builder yields exactly two
lines, the first containing only the first item, the second only the second. -/
theorem c5_wrap_threshold_two_lines (cs : GContainerStyle) (n1 n2 : GNode)
    (mainLimit gx gy : Int) (isRow : Bool)
    (hw : cs.wrap = true)
    (h1 : isFlow n1 = true) (h2 : isFlow n2 = true)
    (hlim : 0 ≤ mainLimit)
    (hex : mainLimit < (baseMainCross n1 isRow).1 + ((baseMainCross n2 isRow).1
      + (if n2.st.ignoreGapBefore = false then (if isRow then gx else gy) else 0))) :
    (buildLines cs [n1, n2] isRow mainLimit gx gy).map (fun ln => ln.items) = [[n1], [n2]] := by
  simp only [buildLines, List.foldl_cons, List.foldl_nil, buildStep, h1, h2, hw]
  norm_num
  split_ifs at hex ⊢ <;> simp_all <;> omega

/-- Wrapping row container with content width 190 used as C5 witness input. -/
def c5Style : GContainerStyle :=
  { defaultStyle with width := 200, height := 60, gapX := 10, wrap := true }

/-- A 60×20 in-flow item used as C5 witness input. -/
def c5Item : GNode := ⟨60, 20, defaultItem⟩

/-- C5 witness: two 60-wide items with gap 10 against limit 100 (60+60+10 > 100)
wrap into two singleton lines. -/
theorem c5_wrap_threshold_two_lines_witness :
    c5Style.wrap = true ∧ isFlow c5Item = true ∧ (0 : Int) ≤ 100
    ∧ (100 : Int) < (baseMainCross c5Item true).1 + ((baseMainCross c5Item true).1
        + (if c5Item.st.ignoreGapBefore = false then (if (true : Bool) then 10 else 0) else 0))
    ∧ (buildLines c5Style [c5Item, c5Item] true 100 10 0).map (fun ln => ln.items)
      = [[c5Item], [c5Item]] :=
  ⟨by decide, by decide, by decide, by decide,
    c5_wrap_threshold_two_lines c5Style c5Item c5Item 100 10 0 true (by decide) (by decide)
      (by decide) (by decide) (by decide)⟩

/-- C4 amended: two outer-size queries with no Add and no SetStyle in between
always return identical width and height, and the second call is a cache hit
(no recomputation) whenever the cached outer size after the first call is not
0×0; for a container whose computed outer size is 0×0 the cache can never be
distinguished from "never computed", so ensureLayout recomputes again. -/
theorem c4_size_idempotent_and_cached (s : ALState) :
    (sizeQuery s).1 = (sizeQuery (sizeQuery s).2.1).1
    ∧ (¬ ((sizeQuery s).2.1.w = 0 ∧ (sizeQuery s).2.1.h = 0) →
        (sizeQuery (sizeQuery s).2.1).2.2 = false) := by
  unfold sizeQuery ensureLayout
  by_cases h : s.dirty = true ∨ (s.w = 0 ∧ s.h = 0)
  · by_cases hz : (layoutFlexSize s.style s.children).1 = 0
      ∧ (layoutFlexSize s.style s.children).2 = 0
    · constructor
      · simp [h, hz]
      · intro hcontra
        simp [h] at hcontra
        exact absurd hz.2 (hcontra hz.1)
    · constructor
      · simp [h, hz]
      · intro _
        simp [h, hz]
  · constructor
    · simp [h]
    · intro _
      simp [h]

/-- Row container of fixed outer size 200×100 used as C4 witness input. -/
def c4Style : GContainerStyle := { defaultStyle with width := 200, height := 100 }

/-- C4 witness: on a container with nonzero computed outer size, the second
outer-size query is a cache hit. -/
theorem c4_size_idempotent_and_cached_witness :
    ¬ ((sizeQuery (newAutoLayout 0 0 c4Style)).2.1.w = 0
        ∧ (sizeQuery (newAutoLayout 0 0 c4Style)).2.1.h = 0)
    ∧ (sizeQuery (sizeQuery (newAutoLayout 0 0 c4Style)).2.1).2.2 = false :=
  ⟨by decide, (c4_size_idempotent_and_cached (newAutoLayout 0 0 c4Style)).2 (by decide)⟩

/-- Auto-height column container (wrapping disabled) for the C8 round trip. -/
def c8ColStyle (w pt2 pr2 pb2 pl2 gx gy : Int) (j : GJustify) (ai ac : GAlign) :
    GContainerStyle :=
  { direction := GDir.column, wrap := false
    padTop := pt2, padRight := pr2, padBottom := pb2, padLeft := pl2
    gapX := gx, gapY := gy
    justify := j, alignItems := ai, alignContent := ac
    width := w, height := 0 }

/-- An in-flow child built from an arbitrary item style. -/
def c8Node (iw ih : Int) (st : GItemStyle) : GNode :=
  ⟨iw, ih, { st with pos := GPosType.relative }⟩

/-- An in-flow child with the gap-suppression flag forced to `flag`. -/
def c8NodeFlag (iw ih : Int) (st : GItemStyle) (flag : Bool) : GNode :=
  ⟨iw, ih, { st with
      pos := GPosType.relative
      ignoreGapBefore := flag }⟩

/-- Without wrapping, two in-flow children always form one single line. -/
theorem buildLines_noWrap_pair (cs : GContainerStyle) (hw : cs.wrap = false)
    (a b : GNode) (ha : isFlow a = true) (hb : isFlow b = true)
    (isRow : Bool) (l gx gy : Int) :
    buildLines cs [a, b] isRow l gx gy
    = [⟨[a, b],
        (baseMainCross a isRow).1
          + (if b.st.ignoreGapBefore = false then (if isRow then gx else gy) else 0)
          + (baseMainCross b isRow).1,
        max (max 0 (baseMainCross a isRow).2) (baseMainCross b isRow).2, 0⟩] := by
  simp [buildLines, buildStep, hw, ha, hb]

/-- A column-direction style makes the main axis vertical. -/
theorem dirIsRow_col (cs : GContainerStyle) (h : cs.direction = GDir.column) :
    dirIsRow cs = false := by
  simp [dirIsRow, h]

/-- Outer height of an auto-height, non-wrapping column with two in-flow
children: the clamped accumulated main length (second gap only if not
suppressed) plus vertical padding. -/
theorem layoutFlexSize_col_auto_pair (cs : GContainerStyle)
    (hdir : cs.direction = GDir.column) (hh : cs.height = 0) (hw : cs.wrap = false)
    (a b : GNode) (ha : isFlow a = true) (hb : isFlow b = true) :
    (layoutFlexSize cs [a, b]).2
    = max 0 ((baseMainCross a false).1
        + ((if b.st.ignoreGapBefore = false then cs.gapY else 0)
          + (baseMainCross b false).1))
      + cs.padTop + cs.padBottom := by
  have hgy : (computeInner cs [a, b] false).gy = cs.gapY := rfl
  simp only [layoutFlexSize, flexFrame, dirIsRow_col cs hdir, hh,
    buildLines_noWrap_pair cs hw a b ha hb false, hgy]
  simp [colAutoMain, lineMainLen]
  omega

/-- The base main/cross contribution of a child does not depend on its
gap-suppression flag. -/
theorem c8NodeFlag_bm (iw ih : Int) (st : GItemStyle) (b1 b2 : Bool) :
    baseMainCross (c8NodeFlag iw ih st b1) false
    = baseMainCross (c8NodeFlag iw ih st b2) false := rfl

/-- C8 amended: an auto-height column with wrapping disabled and two in-flow
children reports an outer height exactly `gy` smaller when the second child's
gap-suppression flag is set than in the identical configuration with the flag
cleared, provided the vertical gap and the children's combined base main
length are non-negative (so that the 0-clamp of the auto height is inactive). -/
theorem c8_gap_suppression_height_round_trip (w pt2 pr2 pb2 pl2 gx gy : Int)
    (j : GJustify) (ai ac : GAlign) (iw1 ih1 iw2 ih2 : Int) (st1 st2 : GItemStyle)
    (hgy : 0 ≤ gy)
    (hS : 0 ≤ (baseMainCross (c8Node iw1 ih1 st1) false).1
        + (baseMainCross (c8NodeFlag iw2 ih2 st2 true) false).1) :
    (layoutFlexSize (c8ColStyle w pt2 pr2 pb2 pl2 gx gy j ai ac)
      [c8Node iw1 ih1 st1, c8NodeFlag iw2 ih2 st2 true]).2
    = (layoutFlexSize (c8ColStyle w pt2 pr2 pb2 pl2 gx gy j ai ac)
      [c8Node iw1 ih1 st1, c8NodeFlag iw2 ih2 st2 false]).2 - gy := by
  rw [layoutFlexSize_col_auto_pair (c8ColStyle w pt2 pr2 pb2 pl2 gx gy j ai ac) rfl rfl rfl
      (c8Node iw1 ih1 st1) (c8NodeFlag iw2 ih2 st2 true) rfl rfl,
    layoutFlexSize_col_auto_pair (c8ColStyle w pt2 pr2 pb2 pl2 gx gy j ai ac) rfl rfl rfl
      (c8Node iw1 ih1 st1) (c8NodeFlag iw2 ih2 st2 false) rfl rfl,
    c8NodeFlag_bm iw2 ih2 st2 false true]
  have hig1 : (c8NodeFlag iw2 ih2 st2 true).st.ignoreGapBefore = true := rfl
  have hig2 : (c8NodeFlag iw2 ih2 st2 false).st.ignoreGapBefore = false := rfl
  have hgap : (c8ColStyle w pt2 pr2 pb2 pl2 gx gy j ai ac).gapY = gy := rfl
  rw [hig1, hig2, hgap]
  simp only [Bool.true_eq_false, if_false, if_true]
  omega

/-- C8 witness: 30×20 children in a zero-padding auto-height column with
vertical gap 10 — setting the flag reports height 40 instead of 50. -/
theorem c8_gap_suppression_height_round_trip_witness :
    (0 : Int) ≤ 10
    ∧ (0 : Int) ≤ (baseMainCross (c8Node 30 20 defaultItem) false).1
        + (baseMainCross (c8NodeFlag 30 20 defaultItem true) false).1
    ∧ (layoutFlexSize (c8ColStyle 0 0 0 0 0 0 10 GJustify.jStart GAlign.aStart GAlign.aStart)
        [c8Node 30 20 defaultItem, c8NodeFlag 30 20 defaultItem true]).2
      = (layoutFlexSize (c8ColStyle 0 0 0 0 0 0 10 GJustify.jStart GAlign.aStart GAlign.aStart)
        [c8Node 30 20 defaultItem, c8NodeFlag 30 20 defaultItem false]).2 - 10 :=
  ⟨by decide, by decide,
    c8_gap_suppression_height_round_trip 0 0 0 0 0 0 10 GJustify.jStart GAlign.aStart
      GAlign.aStart 30 20 30 20 defaultItem defaultItem (by decide) (by decide)⟩

/-- The z-order comparison used by Draw's stable sort. -/
def zle (a b : GNode) : Prop := a.st.zIndex ≤ b.st.zIndex

theorem insertByZ_perm (n : GNode) (l : List GNode) : (insertByZ n l).Perm (n :: l) := by
  induction l with
  | nil => exact List.Perm.refl _
  | cons m ms ih =>
    simp only [insertByZ]
    split
    · exact ((ih.cons m).trans (List.Perm.swap n m ms))
    · exact List.Perm.refl _

theorem insertByZ_mem (n : GNode) (l : List GNode) (x : GNode) :
    x ∈ insertByZ n l ↔ x = n ∨ x ∈ l := by
  rw [(insertByZ_perm n l).mem_iff]
  simp

theorem insertByZ_sorted (n : GNode) (l : List GNode) (h : List.Sorted zle l) :
    List.Sorted zle (insertByZ n l) := by
  induction l with
  | nil => simp [insertByZ, List.Sorted]
  | cons m ms ih =>
    rw [List.sorted_cons] at h
    simp only [insertByZ]
    split
    · rename_i hmn
      rw [List.sorted_cons]
      constructor
      · intro x hx
        rcases (insertByZ_mem n ms x).mp hx with hxe | hxm
        · subst hxe
          exact hmn
        · exact h.1 x hxm
      · exact ih h.2
    · rename_i hmn
      rw [List.sorted_cons]
      constructor
      · intro x hx
        rcases List.mem_cons.mp hx with hxe | hxm
        · subst hxe
          exact le_of_not_le hmn
        · exact le_trans (le_of_not_le hmn) (h.1 x hxm)
      · rw [List.sorted_cons]
        exact h

theorem insertByZ_filter (k : Int) (n : GNode) (l : List GNode) (h : List.Sorted zle l) :
    (insertByZ n l).filter (fun m => m.st.zIndex == k)
    = l.filter (fun m => m.st.zIndex == k)
      ++ (if n.st.zIndex == k then [n] else []) := by
  induction l with
  | nil =>
    cases hn : (n.st.zIndex == k) <;> simp [insertByZ, hn]
  | cons m ms ih =>
    rw [List.sorted_cons] at h
    simp only [insertByZ]
    split
    · rename_i hmn
      rw [List.filter_cons, List.filter_cons, ih h.2]
      split
      · simp
      · simp
    · rename_i hmn
      rw [List.filter_cons]
      by_cases hn : (n.st.zIndex == k) = true
      · have hk : n.st.zIndex = k := by simpa using hn
        have hms : (m :: ms).filter (fun m => m.st.zIndex == k) = [] := by
          rw [List.filter_eq_nil_iff]
          intro x hx
          have hxz : m.st.zIndex ≤ x.st.zIndex := by
            rcases List.mem_cons.mp hx with he | hm
            · subst he
              exact le_refl _
            · exact h.1 x hm
          have : ¬ x.st.zIndex = k := by
            have hnm : n.st.zIndex < m.st.zIndex := lt_of_not_le (by exact hmn)
            omega
          simpa using this
        simp [hn, hms]
      · have hn' : (n.st.zIndex == k) = false := by
          simpa using hn
        simp [hn']

theorem foldIns_sorted (cs : List GNode) (acc : List GNode) (h : List.Sorted zle acc) :
    List.Sorted zle (cs.foldl (fun a n => insertByZ n a) acc) := by
  induction cs generalizing acc with
  | nil => exact h
  | cons n rest ih =>
    exact ih (insertByZ n acc) (insertByZ_sorted n acc h)

theorem foldIns_perm (cs : List GNode) (acc : List GNode) :
    (cs.foldl (fun a n => insertByZ n a) acc).Perm (acc ++ cs) := by
  induction cs generalizing acc with
  | nil => simp
  | cons n rest ih =>
    refine (ih (insertByZ n acc)).trans ?_
    refine (List.Perm.append_right rest (insertByZ_perm n acc)).trans ?_
    exact List.perm_middle.symm

theorem foldIns_filter (k : Int) (cs : List GNode) (acc : List GNode)
    (h : List.Sorted zle acc) :
    (cs.foldl (fun a n => insertByZ n a) acc).filter (fun m => m.st.zIndex == k)
    = acc.filter (fun m => m.st.zIndex == k) ++ cs.filter (fun m => m.st.zIndex == k) := by
  induction cs generalizing acc with
  | nil => simp
  | cons n rest ih =>
    simp only [List.foldl_cons]
    rw [ih (insertByZ n acc) (insertByZ_sorted n acc h), insertByZ_filter k n acc h,
      List.filter_cons]
    split
    · simp
    · simp

theorem sortChildrenByZ_sorted (cs : List GNode) :
    List.Sorted zle (sortChildrenByZ cs) :=
  foldIns_sorted cs [] (by simp)

theorem sortChildrenByZ_perm (cs : List GNode) : (sortChildrenByZ cs).Perm cs := by
  simpa [sortChildrenByZ] using foldIns_perm cs []

theorem sortChildrenByZ_filter (cs : List GNode) (k : Int) :
    (sortChildrenByZ cs).filter (fun m => m.st.zIndex == k)
    = cs.filter (fun m => m.st.zIndex == k) := by
  simpa [sortChildrenByZ] using foldIns_filter k cs [] (by simp)

/-- Wrapping row container of content width 100 used in the C9 demonstration. -/
def c9Style : GContainerStyle :=
  { defaultStyle with width := 100, height := 50, wrap := true }

/-- A 60-wide child with ZIndex 2. -/
def c9A : GNode := ⟨60, 10, { defaultItem with zIndex := 2 }⟩

/-- A 50-wide child with ZIndex 1. -/
def c9B : GNode := ⟨50, 10, { defaultItem with zIndex := 1 }⟩

/-- A 40-wide child with ZIndex 3. -/
def c9C : GNode := ⟨40, 10, { defaultItem with zIndex := 3 }⟩

/-- The C9 container after registering A, B, C in that order. -/
def c9State : ALState :=
  addChild (addChild (addChild (newAutoLayout 0 0 c9Style) c9A) c9B) c9C

/-- C9: Draw re-sorts the stored child list in place by ascending ZIndex with a
stable sort (a permutation, sorted, preserving the relative order of equal
ZIndex values), and the reorder is permanent: the state after `drawStep` keeps
the z-sorted list `[B, A, C]`, and running the line builder over the stored
list after Draw groups different items into lines (widths `[[50], [60, 40]]`)
than over the original registration order (widths `[[60], [50, 40]]`). -/
theorem c9_draw_permanently_resorts_children_by_z :
    (∀ cs : List GNode, List.Sorted zle (sortChildrenByZ cs)
      ∧ (sortChildrenByZ cs).Perm cs
      ∧ ∀ k : Int, (sortChildrenByZ cs).filter (fun m => m.st.zIndex == k)
          = cs.filter (fun m => m.st.zIndex == k))
    ∧ (drawStep c9State).children = [c9B, c9A, c9C]
    ∧ (buildLines c9Style (drawStep c9State).children true 100 0 0).map
        (fun ln => ln.items.map (fun n => n.intrinsicW)) = [[50], [60, 40]]
    ∧ (buildLines c9Style c9State.children true 100 0 0).map
        (fun ln => ln.items.map (fun n => n.intrinsicW)) = [[60], [50, 40]] := by
  refine ⟨fun cs => ⟨sortChildrenByZ_sorted cs, sortChildrenByZ_perm cs,
    fun k => sortChildrenByZ_filter cs k⟩, ?_, ?_, ?_⟩
  · decide
  · decide
  · decide

theorem goDivQ_isSome (a b : Int) (h : b ≠ 0) : (goDivQ a b).isSome = true := by
  simp [goDivQ, h]

theorem optBind_isSome {α β : Type} {o : Option α} {f : α → Option β}
    (ho : o.isSome = true) (hf : ∀ a, (f a).isSome = true) : (o.bind f).isSome = true := by
  cases o with
  | none => simp at ho
  | some a => simpa using hf a

theorem optMap_isSome {α β : Type} (f : α → β) {o : Option α}
    (ho : o.isSome = true) : (o.map f).isSome = true := by
  cases o with
  | none => simp at ho
  | some a => simp

theorem justifyParams_isSome (j : GJustify) (remaining : Int) (nrecs : Nat) :
    (justifyParams j remaining nrecs).isSome = true := by
  cases j with
  | jStart => simp [justifyParams]
  | jCenter =>
    simp only [justifyParams]
    exact optMap_isSome _ (goDivQ_isSome _ _ (by norm_num))
  | jEnd => simp [justifyParams]
  | spaceBetween =>
    simp only [justifyParams]
    split_ifs with h
    · exact optMap_isSome _ (goDivQ_isSome _ _ (by omega))
    · simp
  | spaceAround =>
    simp only [justifyParams]
    split_ifs with h
    · exact optBind_isSome (goDivQ_isSome _ _ (by omega))
        (fun e => optMap_isSome _ (goDivQ_isSome _ _ (by norm_num)))
    · simp
  | spaceEvenly =>
    simp only [justifyParams]
    split_ifs with h
    · exact optMap_isSome _ (goDivQ_isSome _ _ (by omega))
    · simp

theorem alignContentParams_isSome (ac : GAlign) (leftoverCross : Int) (nlines : Nat) :
    (alignContentParams ac leftoverCross nlines).isSome = true := by
  cases ac with
  | aStart => simp [alignContentParams]
  | aCenter =>
    simp only [alignContentParams]
    exact optMap_isSome _ (goDivQ_isSome _ _ (by norm_num))
  | aEnd => simp [alignContentParams]
  | aStretch =>
    simp only [alignContentParams]
    split_ifs with h
    · exact optMap_isSome _ (goDivQ_isSome _ _ (by omega))
    · simp

theorem crossPosOf_isSome (lineCross sizeCross : Int) (r : IRec) (isRow : Bool) :
    (crossPosOf lineCross sizeCross r isRow).isSome = true := by
  rcases halign : r.align <;> simp only [crossPosOf, halign]
  case aStart => simp
  case aCenter => exact optMap_isSome _ (goDivQ_isSome _ _ (by norm_num))
  case aEnd => simp
  case aStretch => simp

theorem placeItems_isSome (isRow : Bool) (alx aly pl pt crossOffset gapMain extra lineCross : Int)
    (l : List (IRec × Int)) :
    ∀ cursor : Int,
      (placeItems isRow alx aly pl pt crossOffset gapMain extra lineCross l cursor).isSome
        = true := by
  induction l with
  | nil =>
    intro cursor
    simp [placeItems]
  | cons p rest ih =>
    intro cursor
    obtain ⟨r, sz⟩ := p
    simp only [placeItems]
    exact optBind_isSome (crossPosOf_isSome _ _ _ _) (fun cp => optMap_isSome _ (ih _))

theorem placeLine_isSome (cs : GContainerStyle) (isRow : Bool)
    (alx aly pl pt gapMain gapCross mainLimit extraPerLine : Int) (ln : GLine)
    (crossOffset : Int) :
    (placeLine cs isRow alx aly pl pt gapMain gapCross mainLimit extraPerLine ln
      crossOffset).isSome = true := by
  simp only [placeLine]
  exact optBind_isSome (justifyParams_isSome _ _ _)
    (fun oe => optMap_isSome _ (placeItems_isSome _ _ _ _ _ _ _ _ _ _ _))

theorem linesLoop_isSome (cs : GContainerStyle) (isRow : Bool)
    (alx aly pl pt gapMain gapCross mainLimit extraPerLine : Int) (lines : List GLine) :
    ∀ co : Int,
      (linesLoop cs isRow alx aly pl pt gapMain gapCross mainLimit extraPerLine lines co).isSome
        = true := by
  induction lines with
  | nil =>
    intro co
    simp [linesLoop]
  | cons ln rest ih =>
    intro co
    simp only [linesLoop]
    exact optBind_isSome (placeLine_isSome _ _ _ _ _ _ _ _ _ _ _ _)
      (fun pr => optMap_isSome _ (ih _))

theorem placeLines_isSome (cs : GContainerStyle) (lines : List GLine) (isRow : Bool)
    (innerW innerH pl pt gx gy alx aly : Int) :
    (placeLines cs lines isRow innerW innerH pl pt gx gy alx aly).isSome = true := by
  simp only [placeLines]
  exact optBind_isSome (alignContentParams_isSome _ _ _)
    (fun se => linesLoop_isSome _ _ _ _ _ _ _ _ _ _ _ _)

theorem layoutFlexChecked_isSome (alx aly : Int) (cs : GContainerStyle)
    (children : List GNode) :
    (layoutFlexChecked alx aly cs children).isSome = true := by
  simp only [layoutFlexChecked]
  exact optMap_isSome _ (placeLines_isSome _ _ _ _ _ _ _ _ _ _ _)

/-- C10: the layout pass is total and never signals an error: every integer
division in placement (justify-content spacing, align-content stretch,
centring) is guarded so the checked pipeline never reaches a division by zero
(`placeLines` returns a value for every style and every list of lines,
including lines with zero items, zero total grow/shrink factors and zero-size
containers; the full pass `layoutFlexChecked` likewise), and the degenerate
empty container produces the zero-sized, trivially-placed result. -/
theorem c10_layout_total_never_fails :
    (∀ (cs : GContainerStyle) (lines : List GLine) (isRow : Bool)
        (innerW innerH pl pt gx gy alx aly : Int),
      (placeLines cs lines isRow innerW innerH pl pt gx gy alx aly).isSome = true)
    ∧ (∀ (alx aly : Int) (cs : GContainerStyle) (children : List GNode),
      (layoutFlexChecked alx aly cs children).isSome = true)
    ∧ layoutFlexChecked 0 0 defaultStyle [] = some ((0, 0), [], []) := by
  refine ⟨fun cs lines isRow iw ih pl pt gx gy ax ay =>
      placeLines_isSome cs lines isRow iw ih pl pt gx gy ax ay,
    fun ax ay cs children => layoutFlexChecked_isSome ax ay cs children, ?_⟩
  decide
